import Mathlib

/-!
Shallow embedding of the TodoApp redux store (`src/store/todoSlice.ts`),
its types (`src/types/index.ts`) and the derived view
`filteredAndSortedTodos` of `MainScreen` (`src/screens/AddTodoScreen.tsx`),
together with proofs of the specified properties.

Modelling conventions:
* Timestamps are natural-number epoch milliseconds.  The code stores
  `new Date().toISOString()` strings and compares them with
  `new Date(s).getTime()`; `toISOString` output is in order-preserving
  bijection with the underlying millisecond value, so ordering facts
  transfer unchanged.
* Each reducer that reads the ambient clock (`Date.now()` /
  `new Date()`) receives that clock value as an explicit `now` argument.
* Redux-toolkit reducers mutate an immer draft; the embedding is the
  induced pure function from state to state.
-/

namespace TodoApp

/-- A todo record, from `Todo` in `src/types/index.ts`. -/
structure Todo where
  id : Nat
  title : String
  completed : Bool
  userId : Nat
  created_at : Nat
  updated_at : Nat
  deriving DecidableEq, Repr

/-- A record as delivered by the remote API, from `ApiTodo` in
`src/types/index.ts` (no timestamps yet). -/
structure ApiTodo where
  id : Nat
  title : String
  completed : Bool
  userId : Nat
  deriving DecidableEq, Repr

/-- The filter selector, from `FilterType` in `src/types/index.ts`. -/
inductive FilterType where
  | All
  | Active
  | Done
  deriving DecidableEq, Repr

/-- The sort selector, from `SortType` in `src/types/index.ts`. -/
inductive SortType where
  | mostRecent
  | id
  deriving DecidableEq, Repr

/-- The store state, from `TodoState` in `src/types/index.ts`. -/
structure TodoState where
  items : List Todo
  loading : Bool
  error : Option String
  filter : FilterType
  sortBy : SortType
  deriving DecidableEq, Repr

/-- The `initialState` of `todoSlice.ts`. -/
def initialState : TodoState :=
  { items := [], loading := false, error := none,
    filter := FilterType.All, sortBy := SortType.mostRecent }

/-- Reducer `addTodo` of `todoSlice.ts`: builds a new todo whose id is
`Date.now()` (the ambient clock `now`), title from the payload,
`completed = false`, `userId = 1`, both timestamps `now`, and `unshift`s
it onto `items`. -/
def addTodo (title : String) (now : Nat) (s : TodoState) : TodoState :=
  { s with items :=
      { id := now, title := title, completed := false, userId := 1,
        created_at := now, updated_at := now } :: s.items }

/-- Helper for `toggleTodo`: `state.items.find(item => item.id === x)`
followed by the in-place mutation of the found draft element flips
`completed` and restamps `updated_at` on the first item whose id is `x`,
leaving everything else untouched. -/
def toggleFirst (x : Nat) (now : Nat) : List Todo → List Todo
  | [] => []
  | t :: ts =>
    if t.id = x then
      { t with completed := !t.completed, updated_at := now } :: ts
    else
      t :: toggleFirst x now ts

/-- Reducer `toggleTodo` of `todoSlice.ts`. -/
def toggleTodo (x : Nat) (now : Nat) (s : TodoState) : TodoState :=
  { s with items := toggleFirst x now s.items }

/-- Helper for `editTodo`: replaces `title` and restamps `updated_at` on
the first item whose id is `x`. -/
def editFirst (x : Nat) (title : String) (now : Nat) : List Todo → List Todo
  | [] => []
  | t :: ts =>
    if t.id = x then
      { t with title := title, updated_at := now } :: ts
    else
      t :: editFirst x title now ts

/-- Reducer `editTodo` of `todoSlice.ts`. -/
def editTodo (x : Nat) (title : String) (now : Nat) (s : TodoState) : TodoState :=
  { s with items := editFirst x title now s.items }

/-- Reducer `deleteTodo` of `todoSlice.ts`:
`state.items = state.items.filter(item => item.id !== x)`. -/
def deleteTodo (x : Nat) (s : TodoState) : TodoState :=
  { s with items := s.items.filter (fun t => t.id != x) }

/-- Reducer `setFilter` of `todoSlice.ts`. -/
def setFilter (f : FilterType) (s : TodoState) : TodoState :=
  { s with filter := f }

/-- Reducer `setSortBy` of `todoSlice.ts`. -/
def setSortBy (sb : SortType) (s : TodoState) : TodoState :=
  { s with sortBy := sb }

/-- Reducer `clearError` of `todoSlice.ts`. -/
def clearError (s : TodoState) : TodoState :=
  { s with error := none }

/-- The stamping done inside `fetchTodosAsync` of `todoSlice.ts`:
`{...apiTodo, created_at: now, updated_at: now}` where `now` is the
fetch-time clock. -/
def stampTodo (now : Nat) (a : ApiTodo) : Todo :=
  { id := a.id, title := a.title, completed := a.completed,
    userId := a.userId, created_at := now, updated_at := now }

/-- Extra reducer for `fetchTodosAsync.pending` of `todoSlice.ts`. -/
def fetchPending (s : TodoState) : TodoState :=
  { s with loading := true, error := none }

/-- Extra reducer for `fetchTodosAsync.fulfilled` of `todoSlice.ts`:
the fulfilled payload is the fetched list stamped at fetch time `now`. -/
def fetchFulfilled (payload : List ApiTodo) (now : Nat) (s : TodoState) : TodoState :=
  { s with loading := false, items := payload.map (stampTodo now) }

/-- Extra reducer for `fetchTodosAsync.rejected` of `todoSlice.ts`:
`state.error = action.payload || 'Failed to fetch todos'`, where the
payload is absent or the message produced by `rejectWithValue`; the empty
string is falsy in JavaScript, hence the fallback also fires on `""`. -/
def fetchRejected (payload : Option String) (s : TodoState) : TodoState :=
  { s with loading := false,
           error := some (match payload with
             | some m => if m = "" then "Failed to fetch todos" else m
             | none => "Failed to fetch todos") }

/-- The comparator passed to `sort` in `filteredAndSortedTodos`
(`MainScreen`): for `mostRecent` it returns
`getTime(b.created_at) - getTime(a.created_at)`, for `id` it returns
`a.id - b.id`. -/
def sortCmp (sb : SortType) (a b : Todo) : Int :=
  match sb with
  | SortType.mostRecent => (b.created_at : Int) - (a.created_at : Int)
  | SortType.id => (a.id : Int) - (b.id : Int)

/-- The total preorder induced by the comparator: `a` may be placed
before `b` exactly when `sortCmp sb a b ≤ 0`. -/
def sortLe (sb : SortType) (a b : Todo) : Prop :=
  sortCmp sb a b ≤ 0

instance (sb : SortType) : DecidableRel (sortLe sb) :=
  fun _ _ => Int.decLe _ _

/-- The filter stage of `filteredAndSortedTodos` (`MainScreen`):
`Active` keeps the non-completed items, `Done` the completed ones, and
`All` (the `default` branch) keeps everything. -/
def filterStep (f : FilterType) (items : List Todo) : List Todo :=
  match f with
  | FilterType.All => items
  | FilterType.Active => items.filter (fun t => !t.completed)
  | FilterType.Done => items.filter (fun t => t.completed)

/-- The derived view `filteredAndSortedTodos` of `MainScreen`: filter,
then a stable sort of a copy (`[...filtered].sort(...)`) consistent with
the comparator.  JavaScript `Array.prototype.sort` is required to be
stable, and a stable comparator-consistent sort is unique, so insertion
sort is an exact model. -/
def filteredAndSortedTodos (items : List Todo) (f : FilterType) (sb : SortType) : List Todo :=
  List.insertionSort (sortLe sb) (filterStep f items)

/-- Sort key: the comparator `sortCmp sb` coincides with comparison of
this integer key (`sortCmp sb a b = sortKey sb a - sortKey sb b`). -/
def sortKey (sb : SortType) (t : Todo) : Int :=
  match sb with
  | SortType.mostRecent => -(t.created_at : Int)
  | SortType.id => (t.id : Int)

/-- One store action together with the ambient clock value at which it
is dispatched. -/
inductive Op where
  | add (title : String)
  | toggle (x : Nat)
  | edit (x : Nat) (title : String)
  | delete (x : Nat)
  | setF (f : FilterType)
  | setS (sb : SortType)
  | clearE
  | loadPending
  | loadFulfilled (payload : List ApiTodo)
  | loadRejected (msg : Option String)
  deriving DecidableEq, Repr

/-- Dispatch one action at clock value `now`. -/
def step (op : Op) (now : Nat) (s : TodoState) : TodoState :=
  match op with
  | Op.add title => addTodo title now s
  | Op.toggle x => toggleTodo x now s
  | Op.edit x title => editTodo x title now s
  | Op.delete x => deleteTodo x s
  | Op.setF f => setFilter f s
  | Op.setS sb => setSortBy sb s
  | Op.clearE => clearError s
  | Op.loadPending => fetchPending s
  | Op.loadFulfilled payload => fetchFulfilled payload now s
  | Op.loadRejected msg => fetchRejected msg s

/-- Dispatch a sequence of timed actions, left to right. -/
def run : List (Op × Nat) → TodoState → TodoState
  | [], s => s
  | p :: rest, s => run rest (step p.1 p.2 s)

/-- The ids currently in the store, in item order. -/
def idsOf (s : TodoState) : List Nat :=
  s.items.map Todo.id

/-- The ids in the store are pairwise distinct. -/
def DistinctIds (s : TodoState) : Prop :=
  (idsOf s).Nodup

instance (s : TodoState) : Decidable (DistinctIds s) :=
  inferInstanceAs (Decidable (idsOf s).Nodup)

/-- Recognises the four local item operations
(`addTodo`/`toggleTodo`/`editTodo`/`deleteTodo`). -/
def isItemOp : Op → Bool
  | Op.add _ => true
  | Op.toggle _ => true
  | Op.edit _ _ => true
  | Op.delete _ => true
  | _ => false

/-- Every `add` in the sequence is dispatched at a clock value that is
not already an id in the store at that moment (`Date.now()` collides
neither with an existing id nor with another add). -/
def freshRun (s : TodoState) : List (Op × Nat) → Bool
  | [] => true
  | p :: rest =>
    (match p.1 with
     | Op.add _ => decide (p.2 ∉ idsOf s)
     | _ => true) && freshRun (step p.1 p.2 s) rest

/-- The clock values of a timed action sequence are non-decreasing and
all at least `c`. -/
def timesMono (c : Nat) : List (Op × Nat) → Bool
  | [] => true
  | p :: rest => decide (c ≤ p.2) && timesMono p.2 rest

/-- First todo with the given id, `items.find(item => item.id === x)`. -/
def findTodo (x : Nat) (s : TodoState) : Option Todo :=
  s.items.find? (fun t => t.id == x)

/-- Every `updated_at` in the store is at most the clock value `c`. -/
def clockBound (c : Nat) (s : TodoState) : Prop :=
  ∀ t ∈ s.items, t.updated_at ≤ c

/-- Every todo in the store satisfies `created_at ≤ updated_at ≤ c`. -/
def stampInv (c : Nat) (s : TodoState) : Prop :=
  ∀ t ∈ s.items, t.created_at ≤ t.updated_at ∧ t.updated_at ≤ c

/-! ### Helper lemmas on the first-match modifiers -/

/-- Projections not touched by the toggle are preserved pointwise. -/
theorem toggleFirst_map {β : Type} (g : Todo → β) (x now : Nat) (l : List Todo)
    (hg : ∀ t : Todo, g { t with completed := !t.completed, updated_at := now } = g t) :
    (toggleFirst x now l).map g = l.map g := by
  induction l with
  | nil => rfl
  | cons t ts ih =>
    by_cases h : t.id = x
    · simp only [toggleFirst, if_pos h, List.map_cons, ih, hg]
    · simp only [toggleFirst, if_neg h, List.map_cons, ih]

/-- Projections not touched by the edit are preserved pointwise. -/
theorem editFirst_map {β : Type} (g : Todo → β) (x : Nat) (title : String) (now : Nat)
    (l : List Todo)
    (hg : ∀ t : Todo, g { t with title := title, updated_at := now } = g t) :
    (editFirst x title now l).map g = l.map g := by
  induction l with
  | nil => rfl
  | cons t ts ih =>
    by_cases h : t.id = x
    · simp only [editFirst, if_pos h, List.map_cons, ih, hg]
    · simp only [editFirst, if_neg h, List.map_cons, ih]

/-- With no matching id, the toggle is the identity. -/
theorem toggleFirst_of_not_mem (x now : Nat) (l : List Todo)
    (h : x ∉ l.map Todo.id) : toggleFirst x now l = l := by
  induction l with
  | nil => rfl
  | cons t ts ih =>
    simp only [List.map_cons, List.mem_cons, not_or] at h
    have hne : ¬ t.id = x := fun he => h.1 he.symm
    simp only [toggleFirst, if_neg hne, ih h.2]

/-- With no matching id, the edit is the identity. -/
theorem editFirst_of_not_mem (x : Nat) (title : String) (now : Nat) (l : List Todo)
    (h : x ∉ l.map Todo.id) : editFirst x title now l = l := by
  induction l with
  | nil => rfl
  | cons t ts ih =>
    simp only [List.map_cons, List.mem_cons, not_or] at h
    have hne : ¬ t.id = x := fun he => h.1 he.symm
    simp only [editFirst, if_neg hne, ih h.2]

/-- After `deleteTodo x` the id `x` no longer occurs in the store. -/
theorem not_mem_idsOf_deleteTodo (x : Nat) (s : TodoState) :
    x ∉ idsOf (deleteTodo x s) := by
  simp only [idsOf, deleteTodo, List.mem_map, not_exists]
  rintro t ⟨ht, hid⟩
  rcases List.mem_filter.mp ht with ⟨-, hne⟩
  simp only [bne_iff_ne, ne_eq] at hne
  exact hne hid

/-! ### The sort order of the derived view -/

/-- The comparator agrees with comparison of the integer sort key. -/
theorem sortLe_iff_key (sb : SortType) (a b : Todo) :
    sortLe sb a b ↔ sortKey sb a ≤ sortKey sb b := by
  cases sb <;> simp only [sortLe, sortCmp, sortKey] <;> omega

/-- Two items compare equal under the comparator exactly when their sort
keys coincide. -/
theorem sortCmp_eq_zero_iff (sb : SortType) (a b : Todo) :
    sortCmp sb a b = 0 ↔ sortKey sb a = sortKey sb b := by
  cases sb <;> simp only [sortCmp, sortKey] <;> omega

instance (sb : SortType) : IsTotal Todo (sortLe sb) where
  total a b := by
    rw [sortLe_iff_key, sortLe_iff_key]
    exact le_total _ _

instance (sb : SortType) : IsTrans Todo (sortLe sb) where
  trans a b c hab hbc := by
    rw [sortLe_iff_key] at hab hbc ⊢
    exact le_trans hab hbc

/-- Inserting an element not satisfying `p` does not disturb the
`p`-filtered image. -/
theorem filter_orderedInsert_of_neg (r : Todo → Todo → Prop) [DecidableRel r]
    (p : Todo → Bool) (a : Todo) (l : List Todo) (hp : p a = false) :
    (List.orderedInsert r a l).filter p = l.filter p := by
  induction l with
  | nil => simp [List.orderedInsert, hp]
  | cons b l ih =>
    by_cases h : r a b
    · simp [List.orderedInsert, if_pos h, List.filter_cons, hp]
    · simp only [List.orderedInsert, if_neg h, List.filter_cons]
      cases hb : p b <;> simp [ih]

/-- Inserting an element satisfying `p` prepends it to the `p`-filtered
image, provided everything it is placed after fails `p`. -/
theorem filter_orderedInsert_of_pos (r : Todo → Todo → Prop) [DecidableRel r]
    (p : Todo → Bool) (a : Todo) (l : List Todo) (hp : p a = true)
    (hP : ∀ b : Todo, ¬ r a b → p b = false) :
    (List.orderedInsert r a l).filter p = a :: l.filter p := by
  induction l with
  | nil => simp [List.orderedInsert, hp]
  | cons b l ih =>
    by_cases h : r a b
    · simp [List.orderedInsert, if_pos h, List.filter_cons, hp]
    · have hb : p b = false := hP b h
      simp [List.orderedInsert, if_neg h, List.filter_cons, hb, ih]

/-- Stability of the view's sort: the subsequence of items whose sort key
is any fixed value `v` is exactly the same, in the same order, before and
after sorting. -/
theorem insertionSort_filter_key (sb : SortType) (v : Int) (l : List Todo) :
    (List.insertionSort (sortLe sb) l).filter (fun t => sortKey sb t == v) =
      l.filter (fun t => sortKey sb t == v) := by
  induction l with
  | nil => rfl
  | cons a l ih =>
    simp only [List.insertionSort]
    by_cases hp : sortKey sb a = v
    · rw [filter_orderedInsert_of_pos (sortLe sb) _ a _ (by simp [hp]) ?_, ih,
        List.filter_cons_of_pos (by simp [hp])]
      intro b hb
      rw [sortLe_iff_key] at hb
      simp only [beq_eq_false_iff_ne, ne_eq]
      intro he
      exact hb (le_of_eq (hp.trans he.symm))
    · rw [filter_orderedInsert_of_neg (sortLe sb) _ a _ (by simp [hp]), ih,
        List.filter_cons_of_neg (by simp [hp])]

/-- C3: for every items list, filter and sort selector, the derived view
is a permutation of the filtered items; it is non-decreasing by `id` under
sort `id` and non-increasing by `created_at` under sort `mostRecent`;
items comparing equal under the active comparator keep their original
relative order (the comparator-equal subsequences are untouched); and the
derivation is a pure function of its inputs, so the underlying items list
is not mutated. -/
theorem claim_C3_view (items : List Todo) (f : FilterType) (sb : SortType) :
    List.Perm (filteredAndSortedTodos items f sb) (filterStep f items) ∧
    (filteredAndSortedTodos items f SortType.id).Pairwise
      (fun a b => a.id ≤ b.id) ∧
    (filteredAndSortedTodos items f SortType.mostRecent).Pairwise
      (fun a b => b.created_at ≤ a.created_at) ∧
    (∀ a : Todo,
      (filteredAndSortedTodos items f sb).filter (fun t => sortCmp sb a t == 0) =
        (filterStep f items).filter (fun t => sortCmp sb a t == 0)) := by
  have hpred : ∀ (a t : Todo),
      (sortCmp sb a t == 0) = (sortKey sb t == sortKey sb a) := by
    intro a t
    rw [Bool.eq_iff_iff]
    simp only [beq_iff_eq]
    rw [sortCmp_eq_zero_iff]
    exact eq_comm
  refine ⟨List.perm_insertionSort _ _, ?_, ?_, ?_⟩
  · have h := List.sorted_insertionSort (sortLe SortType.id) (filterStep f items)
    refine h.imp ?_
    intro a b hab
    rw [sortLe_iff_key] at hab
    simp only [sortKey] at hab
    exact_mod_cast hab
  · have h := List.sorted_insertionSort (sortLe SortType.mostRecent) (filterStep f items)
    refine h.imp ?_
    intro a b hab
    rw [sortLe_iff_key] at hab
    simp only [sortKey, neg_le_neg_iff] at hab
    exact_mod_cast hab
  · intro a
    calc (filteredAndSortedTodos items f sb).filter (fun t => sortCmp sb a t == 0)
        = (filteredAndSortedTodos items f sb).filter
            (fun t => sortKey sb t == sortKey sb a) :=
          List.filter_congr (fun t _ => hpred a t)
      _ = (filterStep f items).filter (fun t => sortKey sb t == sortKey sb a) :=
          insertionSort_filter_key sb (sortKey sb a) (filterStep f items)
      _ = (filterStep f items).filter (fun t => sortCmp sb a t == 0) :=
          (List.filter_congr (fun t _ => hpred a t)).symm

/-! ### Distinctness of ids -/

/-- The id sequence is untouched by `toggleTodo`. -/
theorem idsOf_toggleTodo (x now : Nat) (s : TodoState) :
    idsOf (toggleTodo x now s) = idsOf s :=
  toggleFirst_map Todo.id x now s.items (fun _ => rfl)

/-- The id sequence is untouched by `editTodo`. -/
theorem idsOf_editTodo (x : Nat) (title : String) (now : Nat) (s : TodoState) :
    idsOf (editTodo x title now s) = idsOf s :=
  editFirst_map Todo.id x title now s.items (fun _ => rfl)

/-- A single item operation preserves distinctness of ids, provided an
`add` is dispatched at a clock value that is not already an id. -/
theorem distinctIds_step (op : Op) (n : Nat) (s : TodoState)
    (hop : isItemOp op = true)
    (hfresh : ∀ title : String, op = Op.add title → n ∉ idsOf s)
    (hs : DistinctIds s) : DistinctIds (step op n s) := by
  cases op with
  | add title =>
    exact List.Nodup.cons (hfresh title rfl) hs
  | toggle x =>
    show DistinctIds (toggleTodo x n s)
    unfold DistinctIds
    rw [idsOf_toggleTodo]
    exact hs
  | edit x title =>
    show DistinctIds (editTodo x title n s)
    unfold DistinctIds
    rw [idsOf_editTodo]
    exact hs
  | delete x =>
    have hsub : (idsOf (deleteTodo x s)).Sublist (idsOf s) :=
      (List.filter_sublist s.items).map Todo.id
    exact hs.sublist hsub
  | setF f => exact hs
  | setS sb => exact hs
  | clearE => exact hs
  | loadPending => exact hs
  | loadFulfilled payload => exact absurd hop (by simp [isItemOp])
  | loadRejected msg => exact absurd hop (by simp [isItemOp])

/-- C1 counterexample: two `addTodo`s dispatched in the same millisecond
(`Date.now()` returns 5 both times) produce two todos with the same id,
starting from the initial state whose ids are trivially distinct. -/
theorem claim_C1_counterexample :
    DistinctIds initialState ∧
    ¬ DistinctIds (run [(Op.add "a", 5), (Op.add "b", 5)] initialState) := by
  constructor
  · simp [DistinctIds, idsOf, initialState]
  · intro h
    have : idsOf (run [(Op.add "a", 5), (Op.add "b", 5)] initialState) = [5, 5] := rfl
    rw [DistinctIds, this] at h
    simp at h

/-- C1 (amended): starting from any state whose items have
pairwise-distinct ids, every finite sequence of
`addTodo`/`toggleTodo`/`editTodo`/`deleteTodo` operations in which each
`addTodo` is dispatched at a clock value (`Date.now()`) that is not
already an id in the store yields a state whose items still have
pairwise-distinct ids; and no operation ever changes the id of an
existing todo (`toggleTodo`/`editTodo` keep the id sequence unchanged,
the survivors of `deleteTodo` are exactly todos of the previous state,
and `addTodo` keeps every previously existing todo unchanged in the
tail). -/
theorem claim_C1_distinct_ids (s : TodoState) (ops : List (Op × Nat))
    (hops : ops.all (fun p => isItemOp p.1) = true)
    (hfresh : freshRun s ops = true)
    (hs : DistinctIds s) :
    DistinctIds (run ops s) ∧
    (∀ x now : Nat, ∀ title : String, ∀ s' : TodoState,
      idsOf (toggleTodo x now s') = idsOf s' ∧
      idsOf (editTodo x title now s') = idsOf s' ∧
      (∀ t ∈ (deleteTodo x s').items, t ∈ s'.items) ∧
      (addTodo title now s').items.tail = s'.items) := by
  constructor
  · induction ops generalizing s with
    | nil => exact hs
    | cons p rest ih =>
      obtain ⟨op, n⟩ := p
      simp only [List.all_cons, Bool.and_eq_true] at hops
      simp only [freshRun, Bool.and_eq_true] at hfresh
      refine ih (step op n s) hops.2 hfresh.2 ?_
      refine distinctIds_step op n s hops.1 ?_ hs
      intro title he
      subst he
      simpa using hfresh.1
  · intro x now title s'
    refine ⟨idsOf_toggleTodo x now s', idsOf_editTodo x title now s', ?_, rfl⟩
    intro t ht
    exact List.mem_of_mem_filter ht

/-- Witness for C1 (amended) on a concrete fresh-clock run. -/
theorem claim_C1_distinct_ids_witness :
    ([((Op.add "a" : Op), 1), (Op.add "b", 2), (Op.toggle 1, 3),
        (Op.delete 2, 4)].all (fun p => isItemOp p.1) = true) ∧
    (freshRun initialState
      [(Op.add "a", 1), (Op.add "b", 2), (Op.toggle 1, 3), (Op.delete 2, 4)] = true) ∧
    DistinctIds initialState ∧
    (DistinctIds (run [(Op.add "a", 1), (Op.add "b", 2), (Op.toggle 1, 3),
        (Op.delete 2, 4)] initialState) ∧
     (∀ x now : Nat, ∀ title : String, ∀ s' : TodoState,
       idsOf (toggleTodo x now s') = idsOf s' ∧
       idsOf (editTodo x title now s') = idsOf s' ∧
       (∀ t ∈ (deleteTodo x s').items, t ∈ s'.items) ∧
       (addTodo title now s').items.tail = s'.items)) :=
  ⟨by decide, by decide, by decide,
   claim_C1_distinct_ids initialState
     [(Op.add "a", 1), (Op.add "b", 2), (Op.toggle 1, 3), (Op.delete 2, 4)]
     (by decide) (by decide) (by decide)⟩

/-! ### Tracking a todo through the operations -/

/-- Looking up the toggled id after a toggle returns the modified record. -/
theorem find?_toggleFirst_self (x now : Nat) (l : List Todo) :
    (toggleFirst x now l).find? (fun t => t.id == x) =
      (l.find? (fun t => t.id == x)).map
        (fun t => { t with completed := !t.completed, updated_at := now }) := by
  induction l with
  | nil => rfl
  | cons t ts ih =>
    by_cases h : t.id = x
    · simp only [toggleFirst, if_pos h]
      rw [List.find?_cons_of_pos _ (by simp [h]), List.find?_cons_of_pos _ (by simp [h])]
      rfl
    · simp only [toggleFirst, if_neg h]
      rw [List.find?_cons_of_neg _ (by simp [h]), List.find?_cons_of_neg _ (by simp [h]), ih]

/-- Looking up a different id after a toggle is unaffected. -/
theorem find?_toggleFirst_other (x y now : Nat) (hxy : x ≠ y) (l : List Todo) :
    (toggleFirst y now l).find? (fun t => t.id == x) =
      l.find? (fun t => t.id == x) := by
  induction l with
  | nil => rfl
  | cons t ts ih =>
    by_cases h : t.id = y
    · simp only [toggleFirst, if_pos h]
      rw [List.find?_cons_of_neg _ (by simp [h, Ne.symm hxy]),
        List.find?_cons_of_neg _ (by simp [h, Ne.symm hxy])]
    · simp only [toggleFirst, if_neg h]
      by_cases hx : t.id = x
      · rw [List.find?_cons_of_pos _ (by simp [hx]), List.find?_cons_of_pos _ (by simp [hx])]
      · rw [List.find?_cons_of_neg _ (by simp [hx]), List.find?_cons_of_neg _ (by simp [hx]), ih]

/-- Looking up the edited id after an edit returns the modified record. -/
theorem find?_editFirst_self (x : Nat) (title : String) (now : Nat) (l : List Todo) :
    (editFirst x title now l).find? (fun t => t.id == x) =
      (l.find? (fun t => t.id == x)).map
        (fun t => { t with title := title, updated_at := now }) := by
  induction l with
  | nil => rfl
  | cons t ts ih =>
    by_cases h : t.id = x
    · simp only [editFirst, if_pos h]
      rw [List.find?_cons_of_pos _ (by simp [h]), List.find?_cons_of_pos _ (by simp [h])]
      rfl
    · simp only [editFirst, if_neg h]
      rw [List.find?_cons_of_neg _ (by simp [h]), List.find?_cons_of_neg _ (by simp [h]), ih]

/-- Looking up a different id after an edit is unaffected. -/
theorem find?_editFirst_other (x y : Nat) (title : String) (now : Nat) (hxy : x ≠ y)
    (l : List Todo) :
    (editFirst y title now l).find? (fun t => t.id == x) =
      l.find? (fun t => t.id == x) := by
  induction l with
  | nil => rfl
  | cons t ts ih =>
    by_cases h : t.id = y
    · simp only [editFirst, if_pos h]
      rw [List.find?_cons_of_neg _ (by simp [h, Ne.symm hxy]),
        List.find?_cons_of_neg _ (by simp [h, Ne.symm hxy])]
    · simp only [editFirst, if_neg h]
      by_cases hx : t.id = x
      · rw [List.find?_cons_of_pos _ (by simp [hx]), List.find?_cons_of_pos _ (by simp [hx])]
      · rw [List.find?_cons_of_neg _ (by simp [hx]), List.find?_cons_of_neg _ (by simp [hx]), ih]

/-- Looking up a different id after a delete is unaffected. -/
theorem find?_delete_other (x y : Nat) (hxy : x ≠ y) (l : List Todo) :
    (l.filter (fun t => t.id != y)).find? (fun t => t.id == x) =
      l.find? (fun t => t.id == x) := by
  induction l with
  | nil => rfl
  | cons t ts ih =>
    by_cases h : t.id = y
    · rw [List.filter_cons_of_neg (by simp [h]), List.find?_cons_of_neg _ (by simp [h, Ne.symm hxy])]
      exact ih
    · rw [List.filter_cons_of_pos (by simp [h])]
      by_cases hx : t.id = x
      · rw [List.find?_cons_of_pos _ (by simp [hx]), List.find?_cons_of_pos _ (by simp [hx])]
      · rw [List.find?_cons_of_neg _ (by simp [hx]), List.find?_cons_of_neg _ (by simp [hx]), ih]

/-- Looking up the deleted id after a delete finds nothing. -/
theorem find?_delete_self (y : Nat) (l : List Todo) :
    (l.filter (fun t => t.id != y)).find? (fun t => t.id == y) = none := by
  rw [List.find?_eq_none]
  intro t ht
  rcases List.mem_filter.mp ht with ⟨-, hne⟩
  simpa using bne_iff_ne.mp hne

/-- Each element produced by a toggle is an old element or the modified
first match. -/
theorem mem_toggleFirst (x now : Nat) (l : List Todo) (t' : Todo)
    (h : t' ∈ toggleFirst x now l) :
    t' ∈ l ∨ ∃ t ∈ l, t' = { t with completed := !t.completed, updated_at := now } := by
  induction l with
  | nil => simp [toggleFirst] at h
  | cons t ts ih =>
    by_cases ht : t.id = x
    · simp only [toggleFirst, if_pos ht, List.mem_cons] at h
      rcases h with h | h
      · exact Or.inr ⟨t, List.mem_cons_self t ts, h⟩
      · exact Or.inl (List.mem_cons_of_mem t h)
    · simp only [toggleFirst, if_neg ht, List.mem_cons] at h
      rcases h with h | h
      · exact Or.inl (h ▸ List.mem_cons_self t ts)
      · rcases ih h with h' | ⟨u, hu, he⟩
        · exact Or.inl (List.mem_cons_of_mem t h')
        · exact Or.inr ⟨u, List.mem_cons_of_mem t hu, he⟩

/-- Each element produced by an edit is an old element or the modified
first match. -/
theorem mem_editFirst (x : Nat) (title : String) (now : Nat) (l : List Todo) (t' : Todo)
    (h : t' ∈ editFirst x title now l) :
    t' ∈ l ∨ ∃ t ∈ l, t' = { t with title := title, updated_at := now } := by
  induction l with
  | nil => simp [editFirst] at h
  | cons t ts ih =>
    by_cases ht : t.id = x
    · simp only [editFirst, if_pos ht, List.mem_cons] at h
      rcases h with h | h
      · exact Or.inr ⟨t, List.mem_cons_self t ts, h⟩
      · exact Or.inl (List.mem_cons_of_mem t h)
    · simp only [editFirst, if_neg ht, List.mem_cons] at h
      rcases h with h | h
      · exact Or.inl (h ▸ List.mem_cons_self t ts)
      · rcases ih h with h' | ⟨u, hu, he⟩
        · exact Or.inl (List.mem_cons_of_mem t h')
        · exact Or.inr ⟨u, List.mem_cons_of_mem t hu, he⟩

/-- One dispatched action at a clock value `n ≥ c` keeps every
`updated_at` at most the clock. -/
theorem clockBound_step (c n : Nat) (op : Op) (s : TodoState)
    (hb : clockBound c s) (hcn : c ≤ n) : clockBound n (step op n s) := by
  cases op with
  | add title =>
    intro t ht
    rcases List.mem_cons.mp ht with rfl | ht
    · exact le_refl n
    · exact le_trans (hb t ht) hcn
  | toggle x =>
    intro t' ht'
    rcases mem_toggleFirst x n s.items t' ht' with h | ⟨t, _, rfl⟩
    · exact le_trans (hb t' h) hcn
    · exact le_refl n
  | edit x title =>
    intro t' ht'
    rcases mem_editFirst x title n s.items t' ht' with h | ⟨t, _, rfl⟩
    · exact le_trans (hb t' h) hcn
    · exact le_refl n
  | delete x =>
    intro t ht
    exact le_trans (hb t (List.mem_of_mem_filter ht)) hcn
  | setF f => exact fun t ht => le_trans (hb t ht) hcn
  | setS sb => exact fun t ht => le_trans (hb t ht) hcn
  | clearE => exact fun t ht => le_trans (hb t ht) hcn
  | loadPending => exact fun t ht => le_trans (hb t ht) hcn
  | loadFulfilled payload =>
    intro t ht
    rcases List.mem_map.mp ht with ⟨a, _, rfl⟩
    exact le_refl n
  | loadRejected msg => exact fun t ht => le_trans (hb t ht) hcn

/-- One dispatched action at a clock value `n ≥ c` keeps every todo
satisfying `created_at ≤ updated_at ≤ clock`. -/
theorem stampInv_step (c n : Nat) (op : Op) (s : TodoState)
    (h : stampInv c s) (hcn : c ≤ n) : stampInv n (step op n s) := by
  cases op with
  | add title =>
    intro t ht
    rcases List.mem_cons.mp ht with rfl | ht
    · exact ⟨le_refl n, le_refl n⟩
    · exact ⟨(h t ht).1, le_trans (h t ht).2 hcn⟩
  | toggle x =>
    intro t' ht'
    rcases mem_toggleFirst x n s.items t' ht' with hm | ⟨t, htm, rfl⟩
    · exact ⟨(h t' hm).1, le_trans (h t' hm).2 hcn⟩
    · exact ⟨le_trans (h t htm).1 (le_trans (h t htm).2 hcn), le_refl n⟩
  | edit x title =>
    intro t' ht'
    rcases mem_editFirst x title n s.items t' ht' with hm | ⟨t, htm, rfl⟩
    · exact ⟨(h t' hm).1, le_trans (h t' hm).2 hcn⟩
    · exact ⟨le_trans (h t htm).1 (le_trans (h t htm).2 hcn), le_refl n⟩
  | delete x =>
    intro t ht
    have hm := List.mem_of_mem_filter ht
    exact ⟨(h t hm).1, le_trans (h t hm).2 hcn⟩
  | setF f => exact fun t ht => ⟨(h t ht).1, le_trans (h t ht).2 hcn⟩
  | setS sb => exact fun t ht => ⟨(h t ht).1, le_trans (h t ht).2 hcn⟩
  | clearE => exact fun t ht => ⟨(h t ht).1, le_trans (h t ht).2 hcn⟩
  | loadPending => exact fun t ht => ⟨(h t ht).1, le_trans (h t ht).2 hcn⟩
  | loadFulfilled payload =>
    intro t ht
    rcases List.mem_map.mp ht with ⟨a, _, rfl⟩
    exact ⟨le_refl n, le_refl n⟩
  | loadRejected msg => exact fun t ht => ⟨(h t ht).1, le_trans (h t ht).2 hcn⟩

/-- The clock value after dispatching a timed sequence. -/
def endClock (c : Nat) : List (Op × Nat) → Nat
  | [] => c
  | p :: rest => endClock p.2 rest

/-- The stamp invariant is preserved along any monotone timed run. -/
theorem stampInv_run (c : Nat) (ops : List (Op × Nat)) (s : TodoState)
    (h : stampInv c s) (hm : timesMono c ops = true) :
    stampInv (endClock c ops) (run ops s) := by
  induction ops generalizing c s with
  | nil => exact h
  | cons p rest ih =>
    simp only [timesMono, Bool.and_eq_true, decide_eq_true_eq] at hm
    exact ih p.2 (step p.1 p.2 s) (stampInv_step c p.2 p.1 s h hm.1) hm.2

/-- A lower bound `u` on the `updated_at` of the todo found at id `x`
(or on the clock when no such todo exists). -/
def uboundP (x u c : Nat) (s : TodoState) : Prop :=
  (∀ t : Todo, findTodo x s = some t → u ≤ t.updated_at) ∧
  (findTodo x s = none → u ≤ c)

/-- One dispatched action at a clock value `n ≥ c` preserves the lower
bound on the tracked todo's `updated_at`. -/
theorem ubound_step (x u c n : Nat) (op : Op) (s : TodoState)
    (hu : uboundP x u c s) (hb : clockBound c s) (hcn : c ≤ n) :
    uboundP x u n (step op n s) := by
  have hun : u ≤ n := by
    cases hf : findTodo x s with
    | none => exact le_trans (hu.2 hf) hcn
    | some t =>
      have hm : t ∈ s.items := List.mem_of_find?_eq_some hf
      exact le_trans (le_trans (hu.1 t hf) (hb t hm)) hcn
  refine ⟨?_, fun _ => hun⟩
  intro t' hf'
  cases op with
  | add title =>
    by_cases hx : n = x
    · rw [show findTodo x (step (Op.add title) n s) =
          some { id := n, title := title, completed := false, userId := 1,
                 created_at := n, updated_at := n } from
          List.find?_cons_of_pos _ (by simp [hx])] at hf'
      cases hf'
      exact hun
    · rw [show findTodo x (step (Op.add title) n s) = findTodo x s from
          List.find?_cons_of_neg _ (by simp [hx])] at hf'
      exact hu.1 t' hf'
  | toggle y =>
    by_cases hxy : x = y
    · subst hxy
      have : findTodo x (step (Op.toggle x) n s) =
          (findTodo x s).map (fun t => { t with completed := !t.completed, updated_at := n }) :=
        find?_toggleFirst_self x n s.items
      rw [this] at hf'
      rcases Option.map_eq_some'.mp hf' with ⟨t, _, rfl⟩
      exact hun
    · have : findTodo x (step (Op.toggle y) n s) = findTodo x s :=
        find?_toggleFirst_other x y n hxy s.items
      rw [this] at hf'
      exact hu.1 t' hf'
  | edit y title =>
    by_cases hxy : x = y
    · subst hxy
      have : findTodo x (step (Op.edit x title) n s) =
          (findTodo x s).map (fun t => { t with title := title, updated_at := n }) :=
        find?_editFirst_self x title n s.items
      rw [this] at hf'
      rcases Option.map_eq_some'.mp hf' with ⟨t, _, rfl⟩
      exact hun
    · have : findTodo x (step (Op.edit y title) n s) = findTodo x s :=
        find?_editFirst_other x y title n hxy s.items
      rw [this] at hf'
      exact hu.1 t' hf'
  | delete y =>
    by_cases hxy : x = y
    · subst hxy
      have : findTodo x (step (Op.delete x) n s) = none := find?_delete_self x s.items
      rw [this] at hf'
      cases hf'
    · have : findTodo x (step (Op.delete y) n s) = findTodo x s :=
        find?_delete_other x y hxy s.items
      rw [this] at hf'
      exact hu.1 t' hf'
  | setF f => exact hu.1 t' hf'
  | setS sb => exact hu.1 t' hf'
  | clearE => exact hu.1 t' hf'
  | loadPending => exact hu.1 t' hf'
  | loadFulfilled payload =>
    have hm : t' ∈ (step (Op.loadFulfilled payload) n s).items :=
      List.mem_of_find?_eq_some hf'
    rcases List.mem_map.mp hm with ⟨a, _, rfl⟩
    exact hun
  | loadRejected msg => exact hu.1 t' hf'

/-- The lower bound on the tracked todo's `updated_at` is preserved along
any monotone timed run. -/
theorem ubound_run (x u c : Nat) (ops : List (Op × Nat)) (s : TodoState)
    (hu : uboundP x u c s) (hb : clockBound c s) (hm : timesMono c ops = true) :
    uboundP x u (endClock c ops) (run ops s) := by
  induction ops generalizing c s with
  | nil => exact hu
  | cons p rest ih =>
    simp only [timesMono, Bool.and_eq_true, decide_eq_true_eq] at hm
    exact ih p.2 (step p.1 p.2 s)
      (ubound_step x u c p.2 p.1 s hu hb hm.1)
      (clockBound_step c p.2 p.1 s hb hm.1) hm.2

/-- C6: toggling an id present in the store twice restores that todo's
`completed` flag (the lookup of the toggled id yields the same
`completed` value as before); and across any sequence of store
operations dispatched at non-decreasing clock values, the `updated_at`
of a tracked todo is monotonically non-decreasing. -/
theorem claim_C6_toggle_twice_and_mono (s : TodoState) (x n1 n2 : Nat)
    (_hx : x ∈ idsOf s) :
    ((toggleTodo x n2 (toggleTodo x n1 s)).items.find? (fun t => t.id == x)).map
        Todo.completed =
      (s.items.find? (fun t => t.id == x)).map Todo.completed ∧
    (∀ y c : Nat, ∀ ops : List (Op × Nat), ∀ s' : TodoState, ∀ t t' : Todo,
      clockBound c s' → timesMono c ops = true →
      findTodo y s' = some t → findTodo y (run ops s') = some t' →
      t.updated_at ≤ t'.updated_at) := by
  constructor
  · show ((toggleFirst x n2 (toggleFirst x n1 s.items)).find?
        (fun t => t.id == x)).map Todo.completed = _
    rw [find?_toggleFirst_self, find?_toggleFirst_self]
    cases hf : s.items.find? (fun t => t.id == x) with
    | none => rfl
    | some t => simp [Bool.not_not]
  · intro y c ops s' t t' hb hm h1 h2
    have hu : uboundP y t.updated_at c s' := by
      constructor
      · intro t0 hf0
        rw [h1] at hf0
        cases hf0
        exact le_refl _
      · intro hf0
        rw [h1] at hf0
        cases hf0
    exact (ubound_run y t.updated_at c ops s' hu hb hm).1 t' h2

/-- Witness for C6 at a concrete present id. -/
theorem claim_C6_toggle_twice_and_mono_witness :
    (1 ∈ idsOf (addTodo "a" 1 initialState)) ∧
    (((toggleTodo 1 3 (toggleTodo 1 2 (addTodo "a" 1 initialState))).items.find?
        (fun t => t.id == 1)).map Todo.completed =
      ((addTodo "a" 1 initialState).items.find? (fun t => t.id == 1)).map
        Todo.completed ∧
     (∀ y c : Nat, ∀ ops : List (Op × Nat), ∀ s' : TodoState, ∀ t t' : Todo,
       clockBound c s' → timesMono c ops = true →
       findTodo y s' = some t → findTodo y (run ops s') = some t' →
       t.updated_at ≤ t'.updated_at)) :=
  ⟨by decide,
   claim_C6_toggle_twice_and_mono (addTodo "a" 1 initialState) 1 2 3 (by decide)⟩

/-- C9: on every state reachable from the empty initial state by a
sequence of timed operations with non-decreasing clock values, every todo
satisfies `created_at ≤ updated_at`; and the invariant
`created_at ≤ updated_at ≤ clock` is preserved by every single store
operation, load transitions included. -/
theorem claim_C9_stamp_invariant (ops : List (Op × Nat))
    (hm : timesMono 0 ops = true) :
    (∀ t ∈ (run ops initialState).items, t.created_at ≤ t.updated_at) ∧
    (∀ c n : Nat, ∀ op : Op, ∀ s : TodoState,
      stampInv c s → c ≤ n → stampInv n (step op n s)) := by
  constructor
  · have h0 : stampInv 0 initialState := by
      intro t ht
      exact absurd ht (List.not_mem_nil t)
    have h := stampInv_run 0 ops initialState h0 hm
    exact fun t ht => (h t ht).1
  · intro c n op s h hcn
    exact stampInv_step c n op s h hcn

/-- Witness for C9 on a concrete monotone run. -/
theorem claim_C9_stamp_invariant_witness :
    (timesMono 0 [((Op.add "a" : Op), 1), (Op.toggle 1, 2)] = true) ∧
    ((∀ t ∈ (run [((Op.add "a" : Op), 1), (Op.toggle 1, 2)] initialState).items,
        t.created_at ≤ t.updated_at) ∧
     (∀ c n : Nat, ∀ op : Op, ∀ s : TodoState,
        stampInv c s → c ≤ n → stampInv n (step op n s))) :=
  ⟨by decide, claim_C9_stamp_invariant [(Op.add "a", 1), (Op.toggle 1, 2)] (by decide)⟩

/-! ### Claim theorems: simple reducer properties -/

/-- C5: for every state, title and clock value, `addTodo` inserts exactly
one new todo at the front of `items`, with `completed = false` and
`created_at = updated_at = now`, leaving every previously existing todo
unchanged and in its previous relative order (the tail is literally the
old list). -/
theorem claim_C5_addTodo (s : TodoState) (title : String) (now : Nat) :
    (addTodo title now s).items =
      { id := now, title := title, completed := false, userId := 1,
        created_at := now, updated_at := now } :: s.items ∧
    ((addTodo title now s).items.head?.map Todo.completed = some false ∧
     (addTodo title now s).items.head?.map Todo.created_at = some now ∧
     (addTodo title now s).items.head?.map Todo.updated_at = some now) ∧
    (addTodo title now s).items.tail = s.items :=
  ⟨rfl, ⟨rfl, rfl, rfl⟩, rfl⟩

/-- C4: the filter stage keeps every item under `All`, exactly the items
with `completed = false` under `Active`, exactly those with
`completed = true` under `Done`, and the `Active` and `Done` selections
together cover the full item set. -/
theorem claim_C4_filterStep (items : List Todo) (t : Todo) :
    (t ∈ filterStep FilterType.All items ↔ t ∈ items) ∧
    (t ∈ filterStep FilterType.Active items ↔ t ∈ items ∧ t.completed = false) ∧
    (t ∈ filterStep FilterType.Done items ↔ t ∈ items ∧ t.completed = true) ∧
    ((t ∈ filterStep FilterType.Active items ∨ t ∈ filterStep FilterType.Done items)
      ↔ t ∈ items) := by
  refine ⟨Iff.rfl, ?_, ?_, ?_⟩
  · simp [filterStep, List.mem_filter]
  · simp [filterStep, List.mem_filter]
  · simp only [filterStep, List.mem_filter, Bool.not_eq_true']
    constructor
    · rintro (⟨h, -⟩ | ⟨h, -⟩) <;> exact h
    · intro h
      rcases hb : t.completed with _ | _
      · exact Or.inl ⟨h, rfl⟩
      · exact Or.inr ⟨h, rfl⟩

/-- C2 counterexample: a load rejected with the empty failure message
(`rejectWithValue("")`, which is falsy in JavaScript) ends with `error`
set to the fixed default text, not to the failure message. -/
theorem claim_C2_counterexample :
    (fetchRejected (some "") (addTodo "a" 7 initialState)).error ≠ some "" ∧
    (fetchRejected (some "") (addTodo "a" 7 initialState)).error =
      some "Failed to fetch todos" :=
  ⟨by decide, rfl⟩

/-- C2 (amended): when a load is rejected, the resulting state has
`loading = false`; `error` is set to the failure message when that
message is nonempty, and to the fixed default `"Failed to fetch todos"`
when the rejection payload is the empty string or absent; and the items
list is exactly the items list from before the call (load failure is
atomic with respect to items). -/
theorem claim_C2_load_failure (s : TodoState) (payload : Option String) (m : String) :
    (fetchRejected payload s).loading = false ∧
    (fetchRejected payload s).items = s.items ∧
    (fetchRejected (some m) s).error =
      some (if m = "" then "Failed to fetch todos" else m) ∧
    (fetchRejected none s).error = some "Failed to fetch todos" :=
  ⟨rfl, rfl, rfl, rfl⟩

/-- C8: a successful load cycle: `pending` sets `loading = true`, clears
`error` and keeps `items`; `fulfilled` sets `loading = false` and replaces
`items` wholesale with the fetched records stamped at the fetch time; in
particular the one-record body `[{id:1,title:"x",completed:false,userId:1}]`
ends with exactly that one stamped item, `loading = false`, `error = none`. -/
theorem claim_C8_load_success (s : TodoState) (payload : List ApiTodo) (now : Nat) :
    (fetchPending s).loading = true ∧
    (fetchPending s).error = none ∧
    (fetchPending s).items = s.items ∧
    (fetchFulfilled payload now s).loading = false ∧
    (fetchFulfilled payload now s).items = payload.map (stampTodo now) ∧
    (fetchFulfilled [⟨1, "x", false, 1⟩] now (fetchPending s)).items =
      [⟨1, "x", false, 1, now, now⟩] ∧
    (fetchFulfilled [⟨1, "x", false, 1⟩] now (fetchPending s)).loading = false ∧
    (fetchFulfilled [⟨1, "x", false, 1⟩] now (fetchPending s)).error = none :=
  ⟨rfl, rfl, rfl, rfl, rfl, rfl, rfl, rfl⟩

/-- C7: on a state containing no todo with id `x`, each of
`toggleTodo x`, `editTodo x`, `deleteTodo x` leaves the entire state
unchanged; and immediately after `deleteTodo x`, any toggle/edit/delete
referencing `x` leaves the state unchanged. -/
theorem claim_C7_missing_id_noop (s : TodoState) (x now : Nat) (title : String)
    (h : x ∉ idsOf s) :
    toggleTodo x now s = s ∧
    editTodo x title now s = s ∧
    deleteTodo x s = s ∧
    (∀ s' : TodoState, ∀ n : Nat, ∀ str : String,
      toggleTodo x n (deleteTodo x s') = deleteTodo x s' ∧
      editTodo x str n (deleteTodo x s') = deleteTodo x s' ∧
      deleteTodo x (deleteTodo x s') = deleteTodo x s') := by
  have hdel : ∀ s₀ : TodoState, x ∉ idsOf s₀ → deleteTodo x s₀ = s₀ := by
    intro s₀ h₀
    have : s₀.items.filter (fun t => t.id != x) = s₀.items := by
      apply List.filter_eq_self.mpr
      intro t ht
      simp only [bne_iff_ne, ne_eq]
      intro he
      exact h₀ (List.mem_map.mpr ⟨t, ht, he⟩)
    simp [deleteTodo, this]
  refine ⟨?_, ?_, hdel s h, ?_⟩
  · simp [toggleTodo, toggleFirst_of_not_mem x now s.items h]
  · simp [editTodo, editFirst_of_not_mem x title now s.items h]
  · intro s' n str
    have h' := not_mem_idsOf_deleteTodo x s'
    refine ⟨?_, ?_, hdel _ h'⟩
    · simp [toggleTodo, toggleFirst_of_not_mem x n _ h']
    · simp [editTodo, editFirst_of_not_mem x str n _ h']

/-- Witness for C7 at a concrete state lacking id 99. -/
theorem claim_C7_missing_id_noop_witness :
    (99 ∉ idsOf (addTodo "a" 7 initialState)) ∧
    (toggleTodo 99 8 (addTodo "a" 7 initialState) = addTodo "a" 7 initialState ∧
     editTodo 99 "b" 8 (addTodo "a" 7 initialState) = addTodo "a" 7 initialState ∧
     deleteTodo 99 (addTodo "a" 7 initialState) = addTodo "a" 7 initialState ∧
     (∀ s' : TodoState, ∀ n : Nat, ∀ str : String,
       toggleTodo 99 n (deleteTodo 99 s') = deleteTodo 99 s' ∧
       editTodo 99 str n (deleteTodo 99 s') = deleteTodo 99 s' ∧
       deleteTodo 99 (deleteTodo 99 s') = deleteTodo 99 s')) :=
  ⟨by decide, claim_C7_missing_id_noop (addTodo "a" 7 initialState) 99 8 "b" (by decide)⟩

/-- C10: each synchronous reducer touches only its designated part of the
state: the four item operations leave `loading`, `error`, `filter`,
`sortBy` unchanged; `setFilter`, `setSortBy`, `clearError` leave `items`
unchanged; toggling preserves every todo's `id`, `userId`, `created_at`
and `title`; editing preserves every todo's `id`, `userId`, `created_at`
and `completed`. -/
theorem claim_C10_frame (s : TodoState) (x now : Nat) (title : String)
    (f : FilterType) (sb : SortType) :
    ((addTodo title now s).loading = s.loading ∧ (addTodo title now s).error = s.error ∧
     (addTodo title now s).filter = s.filter ∧ (addTodo title now s).sortBy = s.sortBy) ∧
    ((toggleTodo x now s).loading = s.loading ∧ (toggleTodo x now s).error = s.error ∧
     (toggleTodo x now s).filter = s.filter ∧ (toggleTodo x now s).sortBy = s.sortBy) ∧
    ((editTodo x title now s).loading = s.loading ∧ (editTodo x title now s).error = s.error ∧
     (editTodo x title now s).filter = s.filter ∧ (editTodo x title now s).sortBy = s.sortBy) ∧
    ((deleteTodo x s).loading = s.loading ∧ (deleteTodo x s).error = s.error ∧
     (deleteTodo x s).filter = s.filter ∧ (deleteTodo x s).sortBy = s.sortBy) ∧
    ((setFilter f s).items = s.items ∧ (setSortBy sb s).items = s.items ∧
     (clearError s).items = s.items) ∧
    ((toggleTodo x now s).items.map Todo.id = s.items.map Todo.id ∧
     (toggleTodo x now s).items.map Todo.userId = s.items.map Todo.userId ∧
     (toggleTodo x now s).items.map Todo.created_at = s.items.map Todo.created_at ∧
     (toggleTodo x now s).items.map Todo.title = s.items.map Todo.title) ∧
    ((editTodo x title now s).items.map Todo.id = s.items.map Todo.id ∧
     (editTodo x title now s).items.map Todo.userId = s.items.map Todo.userId ∧
     (editTodo x title now s).items.map Todo.created_at = s.items.map Todo.created_at ∧
     (editTodo x title now s).items.map Todo.completed = s.items.map Todo.completed) :=
  ⟨⟨rfl, rfl, rfl, rfl⟩, ⟨rfl, rfl, rfl, rfl⟩, ⟨rfl, rfl, rfl, rfl⟩, ⟨rfl, rfl, rfl, rfl⟩,
   ⟨rfl, rfl, rfl⟩,
   ⟨toggleFirst_map Todo.id x now s.items (fun _ => rfl),
    toggleFirst_map Todo.userId x now s.items (fun _ => rfl),
    toggleFirst_map Todo.created_at x now s.items (fun _ => rfl),
    toggleFirst_map Todo.title x now s.items (fun _ => rfl)⟩,
   ⟨editFirst_map Todo.id x title now s.items (fun _ => rfl),
    editFirst_map Todo.userId x title now s.items (fun _ => rfl),
    editFirst_map Todo.created_at x title now s.items (fun _ => rfl),
    editFirst_map Todo.completed x title now s.items (fun _ => rfl)⟩⟩

end TodoApp
